import Mathlib

/-!
Shallow embedding of the job-queue module of `cli-mess` (the durable,
priority-ordered job queue: enqueue / claim / complete / fail /
reclaimStaleLocks / query / admin operations over the single `jobs` table).

The durable store is modelled as a list of job rows in insertion (rowid)
order.  A `SELECT ... LIMIT 1` without an `ORDER BY` returns the first
matching row in that order; an `UPDATE ... WHERE p` maps the row transform
over every row satisfying `p`; `RETURNING` yields the transformed matching
rows, of which the calling code takes the head.  Timestamps (ISO-8601
strings in the source, which compare lexicographically in time order) are
modelled as naturals; the database-generated UUIDs are modelled by passing
the fresh id to the operation explicitly.
-/

namespace JobQueue

/-- The four values of the `status` column of the `jobs` table. -/
inductive Status where
  | pending
  | claimed
  | completed
  | failed
deriving DecidableEq, Repr

/-- The tagged payload union `JobPayload` (the queue engine never branches
on its contents; the `config` object of `sync_aws` is modelled opaquely as
an association list). -/
inductive JobPayload where
  | claude_extraction (name prompt : String)
      (branch targetPath originUrl requirementId : Option String)
      (promptHash : String)
  | create_file (path content : String) (overwrite : Option Bool)
  | delete_file (path : String) (requireExists : Option Bool)
  | sync_aws (resourceType resourceId : String) (config : List (String × String))
  | echo (message : String)
deriving DecidableEq, Repr

/-- The `type` discriminator string of a payload (`payload.type` in the
source). -/
def JobPayload.ptype : JobPayload → String
  | .claude_extraction .. => "claude_extraction"
  | .create_file .. => "create_file"
  | .delete_file .. => "delete_file"
  | .sync_aws .. => "sync_aws"
  | .echo .. => "echo"

/-- One row of the `jobs` table (schema of `sqliteTable "jobs"`). -/
structure Job where
  id : String
  type : String
  payload : JobPayload
  status : Status
  priority : Int
  attempts : Nat
  maxAttempts : Nat
  lastError : Option String
  lockedBy : Option String
  lockedAt : Option Nat
  createdAt : Nat
  claimedAt : Option Nat
  completedAt : Option Nat
  idempotencyKey : Option String
deriving DecidableEq, Repr

/-- The durable store: the rows of the `jobs` table in insertion order. -/
abbrev Store := List Job

/-- Options of `enqueue`: all three fields optional in the source; the
defaults `priority = 0`, `maxAttempts = 3` are applied inside `enqueue` by
the destructuring. -/
structure EnqueueOptions where
  priority : Option Int
  maxAttempts : Option Nat
  idempotencyKey : Option String
deriving DecidableEq, Repr

/-- The constant `LOCK_TIMEOUT_MINUTES * 60 * 1000` in milliseconds. -/
def LOCK_TIMEOUT_MS : Nat := 5 * 60 * 1000

/-- The dedup lookup of `enqueue`:
`SELECT ... WHERE type = payload.type AND idempotency_key = key LIMIT 1`,
i.e. the first matching row in insertion order. -/
def dedupHit (payload : JobPayload) (k : String) (s : Store) : Option Job :=
  (s : List Job).find? (fun j =>
    j.type == payload.ptype && j.idempotencyKey == some k)

/-- Operation `enqueue(payload, options)`.  `newId` is the UUID generated
by `generateId()` and `now` the timestamp of `nowISO()`.  The JavaScript
guard `if (idempotencyKey)` is false for an absent or empty key; a found
row is returned unchanged only when its status is pending or claimed.
Returns the job handed back to the caller together with the updated
store. -/
def enqueue (payload : JobPayload) (options : EnqueueOptions)
    (newId : String) (now : Nat) (s : Store) : Job × Store :=
  let priority := options.priority.getD 0
  let maxAttempts := options.maxAttempts.getD 3
  let hit : Option Job :=
    match options.idempotencyKey with
    | some k =>
        if k ≠ "" then
          match dedupHit payload k s with
          | some j =>
              if j.status = Status.pending ∨ j.status = Status.claimed then some j
              else none
          | none => none
        else none
    | none => none
  match hit with
  | some j => (j, s)
  | none =>
      let job : Job :=
        { id := newId, type := payload.ptype, payload := payload
          status := Status.pending, priority := priority, attempts := 0
          maxAttempts := maxAttempts, lastError := none, lockedBy := none
          lockedAt := none, createdAt := now, claimedAt := none
          completedAt := none, idempotencyKey := options.idempotencyKey }
      (job, s ++ [job])

/-- Whether `a` strictly precedes `b` in the claim ordering
`ORDER BY priority DESC, created_at ASC`. -/
def betterJob (a b : Job) : Bool :=
  b.priority < a.priority || (a.priority == b.priority && a.createdAt < b.createdAt)

/-- A row of `l` that no other row of `l` strictly precedes in the claim
ordering: the row produced by `ORDER BY priority DESC, created_at ASC
LIMIT 1` (ties beyond the two sort keys are broken towards the earlier
row). -/
def selectFrom : List Job → Option Job
  | [] => none
  | j :: js =>
      match selectFrom js with
      | none => some j
      | some b => some (if betterJob b j then b else j)

/-- The scalar subquery of `claim`:
`SELECT id FROM jobs WHERE status = 'pending' ORDER BY priority DESC,
created_at ASC LIMIT 1`, returned as the whole row. -/
def selectTop (s : Store) : Option Job :=
  selectFrom ((s : List Job).filter (fun j => j.status == Status.pending))

/-- The row transform of the `claim` UPDATE. -/
def claimUpdate (workerId : String) (now : Nat) (j : Job) : Job :=
  { j with status := Status.claimed, lockedBy := some workerId
           lockedAt := some now, claimedAt := some now
           attempts := j.attempts + 1 }

/-- Operation `claim(workerId)`: one atomic conditional UPDATE whose WHERE clause is
`status = 'pending' AND id = (subquery)`, setting the claimed status, lock
stamps and `attempts + 1`, `RETURNING` the updated row; `null` when no row
matched.  The returned payload is the stored payload decoded. -/
def claim (workerId : String) (now : Nat) (s : Store) :
    Option (Job × JobPayload) × Store :=
  match selectTop s with
  | none => (none, s)
  | some sel =>
      match (s : List Job).filter
          (fun j => j.status == Status.pending && j.id == sel.id) with
      | [] =>
          (none,
           (s : List Job).map (fun j =>
             if j.status == Status.pending && j.id == sel.id then
               claimUpdate workerId now j
             else j))
      | j :: _ =>
          (some (claimUpdate workerId now j, (claimUpdate workerId now j).payload),
           (s : List Job).map (fun j =>
             if j.status == Status.pending && j.id == sel.id then
               claimUpdate workerId now j
             else j))

/-- The row transform of the `complete` UPDATE. -/
def completeUpdate (now : Nat) (j : Job) : Job :=
  { j with status := Status.completed, completedAt := some now
           lockedBy := none, lockedAt := none }

/-- Operation `complete(jobId)`: UPDATE of every row with the given id (no check of
the current status or lock holder), `RETURNING` the updated row or `null`
when the id is unknown. -/
def complete (jobId : String) (now : Nat) (s : Store) : Option Job × Store :=
  match (s : List Job).filter (fun j => j.id == jobId) with
  | [] =>
      (none, (s : List Job).map (fun j =>
        if j.id == jobId then completeUpdate now j else j))
  | j :: _ =>
      (some (completeUpdate now j), (s : List Job).map (fun j =>
        if j.id == jobId then completeUpdate now j else j))

/-- The terminal row transform of `fail` (attempts exhausted). -/
def failTerminal (error : String) (now : Nat) (j : Job) : Job :=
  { j with status := Status.failed, lastError := some error
           completedAt := some now, lockedBy := none, lockedAt := none }

/-- The retry row transform of `fail` (budget remaining). -/
def failRetry (error : String) (j : Job) : Job :=
  { j with status := Status.pending, lastError := some error
           lockedBy := none, lockedAt := none }

/-- Operation `fail(jobId, error)`: first SELECTs the current row (null for an
unknown id, with no mutation), then compares `attempts >= maxAttempts` on
that row and runs the terminal or the retry UPDATE on every row with the
id, `RETURNING` the updated row. -/
def fail (jobId error : String) (now : Nat) (s : Store) : Option Job × Store :=
  match (s : List Job).find? (fun j => j.id == jobId) with
  | none => (none, s)
  | some current =>
      if current.maxAttempts ≤ current.attempts then
        (some (failTerminal error now current),
         (s : List Job).map (fun j =>
           if j.id == jobId then failTerminal error now j else j))
      else
        (some (failRetry error current),
         (s : List Job).map (fun j =>
           if j.id == jobId then failRetry error j else j))

/-- The WHERE predicate of `reclaimStaleLocks`:
`status = 'claimed' AND locked_at < cutoff` (a NULL `locked_at` compares
false). -/
def staleClaimed (cutoff : Nat) (j : Job) : Bool :=
  j.status == Status.claimed &&
    (match j.lockedAt with
     | some t => t < cutoff
     | none => false)

/-- The row transform of the reclamation UPDATE. -/
def reclaimUpdate (j : Job) : Job :=
  { j with status := Status.pending, lockedBy := none, lockedAt := none }

/-- Operation `reclaimStaleLocks()`: cutoff is `Date.now() - LOCK_TIMEOUT` and every
claimed row locked before the cutoff is reset to pending with the lock
cleared; returns the number of rows updated. -/
def reclaimStaleLocks (now : Nat) (s : Store) : Nat × Store :=
  (((s : List Job).filter (staleClaimed (now - LOCK_TIMEOUT_MS))).length,
   (s : List Job).map (fun j =>
     if staleClaimed (now - LOCK_TIMEOUT_MS) j then reclaimUpdate j else j))

/-- Operation `getJob(id)`: point lookup. -/
def getJob (id : String) (s : Store) : Option Job :=
  (s : List Job).find? (fun j => j.id == id)

/-- Filter argument of `getJobs`. -/
structure JobFilter where
  status : Option Status
  type : Option String
  limit : Option Nat
  offset : Option Nat
deriving DecidableEq, Repr

/-- The page ordering of `getJobs`: `priority DESC, created_at ASC`
(non-strict, for sorting). -/
def jobLe (a b : Job) : Bool :=
  b.priority < a.priority || (a.priority == b.priority && a.createdAt ≤ b.createdAt)

/-- Insertion into a list sorted by `jobLe`. -/
def insertSorted (j : Job) : List Job → List Job
  | [] => [j]
  | x :: xs => if jobLe x j then x :: insertSorted j xs else j :: x :: xs

/-- Stable sort by `priority DESC, created_at ASC` (`ORDER BY` of
`getJobs`). -/
def sortJobs : List Job → List Job
  | [] => []
  | x :: xs => insertSorted x (sortJobs xs)

/-- Operation `getJobs(filter)`: defaults `limit = 50`, `offset = 0`.  The source
builds the query with `if (status) query = query.where(...)` followed by
`if (type) query = query.where(...)`; the second `.where` call replaces
the first condition on the builder, so when a (non-empty) `type` is given
the status condition is dropped.  The page is ordered by
`priority DESC, created_at ASC` and sliced by offset/limit. -/
def getJobs (filter : JobFilter) (s : Store) : List Job :=
  let lim := filter.limit.getD 50
  let off := filter.offset.getD 0
  let whereStatus : Option (Job → Bool) :=
    match filter.status with
    | some st => some (fun j => j.status == st)
    | none => none
  let whereFinal : Option (Job → Bool) :=
    match filter.type with
    | some t => if t ≠ "" then some (fun j => j.type == t) else whereStatus
    | none => whereStatus
  let base :=
    match whereFinal with
    | some p => (s : List Job).filter p
    | none => s
  ((sortJobs base).drop off).take lim

/-- The row transform of the `retryJob` UPDATE. -/
def retryUpdate (j : Job) : Job :=
  { j with status := Status.pending, attempts := 0, lastError := none
           lockedBy := none, lockedAt := none, completedAt := none }

/-- Operation `retryJob(jobId)`: administrative UPDATE of every row with the id,
forcing pending and resetting the attempt budget, `RETURNING` the updated
row or `null` for an unknown id. -/
def retryJob (jobId : String) (s : Store) : Option Job × Store :=
  match (s : List Job).filter (fun j => j.id == jobId) with
  | [] =>
      (none, (s : List Job).map (fun j =>
        if j.id == jobId then retryUpdate j else j))
  | j :: _ =>
      (some (retryUpdate j), (s : List Job).map (fun j =>
        if j.id == jobId then retryUpdate j else j))

/-- Operation `deleteJob(jobId)`: unconditional DELETE; reports whether a row was
removed. -/
def deleteJob (jobId : String) (s : Store) : Bool × Store :=
  let removed := (s : List Job).filter (fun j => j.id == jobId)
  (!removed.isEmpty, (s : List Job).filter (fun j => !(j.id == jobId)))

/-- Operation `purgeCompleted()`: DELETE of every row with status completed,
returning the number of rows removed. -/
def purgeCompleted (s : Store) : Nat × Store :=
  (((s : List Job).filter (fun j => j.status == Status.completed)).length,
   (s : List Job).filter (fun j => !(j.status == Status.completed)))

/-- One call of a mutating operation of the queue module, with the
timestamps and generated ids it consumed made explicit. -/
inductive Op where
  | enqueue (payload : JobPayload) (options : EnqueueOptions)
      (newId : String) (now : Nat)
  | claim (workerId : String) (now : Nat)
  | complete (jobId : String) (now : Nat)
  | fail (jobId error : String) (now : Nat)
  | reclaimStaleLocks (now : Nat)
  | retryJob (jobId : String)
  | deleteJob (jobId : String)
  | purgeCompleted
deriving DecidableEq, Repr

/-- The store effect of one operation. -/
def step : Op → Store → Store
  | .enqueue p o i t, s => (enqueue p o i t s).2
  | .claim w t, s => (claim w t s).2
  | .complete j t, s => (complete j t s).2
  | .fail j e t, s => (fail j e t s).2
  | .reclaimStaleLocks t, s => (reclaimStaleLocks t s).2
  | .retryJob j, s => (retryJob j s).2
  | .deleteJob j, s => (deleteJob j s).2
  | .purgeCompleted, s => (purgeCompleted s).2

/-- Running a sequence of operations, oldest first. -/
def run : List Op → Store → Store
  | [], s => s
  | op :: ops, s => run ops (step op s)

/-! ## Specification predicates -/

/-- The contract of `claim` (claim C1): when it returns null the store is
unchanged and no pending job exists; when it returns a job, that job is a
pending job of the store that no other pending job beats on
(priority DESC, createdAt ASC), it alone is transitioned in place to
claimed with the lock stamps, `claimedAt` and `attempts + 1`, and it is
returned together with its stored payload. -/
def ClaimSpec (s : Store) (w : String) (t : Nat) : Prop :=
  ((claim w t s).1 = none → (claim w t s).2 = s ∧ ∀ j ∈ s, j.status ≠ Status.pending)
  ∧ ∀ j p, (claim w t s).1 = some (j, p) →
      ∃ l1 j0 l2, s = l1 ++ j0 :: l2
        ∧ j0.status = Status.pending
        ∧ (∀ x ∈ s, x.status = Status.pending →
            x.priority ≤ j0.priority ∧ (x.priority = j0.priority → j0.createdAt ≤ x.createdAt))
        ∧ j = claimUpdate w t j0
        ∧ p = j0.payload
        ∧ j.status = Status.claimed ∧ j.lockedBy = some w ∧ j.lockedAt = some t
        ∧ j.claimedAt = some t ∧ j.attempts = j0.attempts + 1 ∧ j.payload = j0.payload
        ∧ (claim w t s).2 = l1 ++ j :: l2

/-- The contract of `fail` (claim C2): null and no change for an unknown
id; for the job with the id, the terminal transition when
`attempts ≥ maxAttempts` and the retry transition otherwise, each touching
exactly that row; and `claim` only ever returns (the claimed version of) a
job that was pending, so a failed job is not returned by the claim path. -/
def FailSpec (s : Store) (jobId error : String) (t : Nat) : Prop :=
  ((∀ x ∈ s, x.id ≠ jobId) → fail jobId error t s = (none, s))
  ∧ (∀ l1 j l2, s = l1 ++ j :: l2 → j.id = jobId →
      (∀ x ∈ l1, x.id ≠ jobId) → (∀ x ∈ l2, x.id ≠ jobId) →
      (j.maxAttempts ≤ j.attempts →
        fail jobId error t s
          = (some (failTerminal error t j), l1 ++ failTerminal error t j :: l2)
        ∧ (failTerminal error t j).status = Status.failed
        ∧ (failTerminal error t j).lastError = some error
        ∧ (failTerminal error t j).completedAt = some t
        ∧ (failTerminal error t j).lockedBy = none
        ∧ (failTerminal error t j).lockedAt = none
        ∧ (failTerminal error t j).attempts = j.attempts)
      ∧ (j.attempts < j.maxAttempts →
        fail jobId error t s
          = (some (failRetry error j), l1 ++ failRetry error j :: l2)
        ∧ (failRetry error j).status = Status.pending
        ∧ (failRetry error j).lastError = some error
        ∧ (failRetry error j).lockedBy = none
        ∧ (failRetry error j).lockedAt = none
        ∧ (failRetry error j).attempts = j.attempts))
  ∧ (∀ w u r s2, claim w u s = (some r, s2) →
      ∃ j0, j0 ∈ s ∧ j0.status = Status.pending ∧ r.1 = claimUpdate w u j0)

/-- A fresh insertion by `enqueue` (used by the amended claim C3): the
returned job carries the given id, status pending, zero attempts, the
given creation time, the payload's type and the options' values, and the
store grows by exactly that row at the end. -/
def InsertsFresh (p : JobPayload) (o : EnqueueOptions) (newId : String)
    (t : Nat) (s : Store) : Prop :=
  (enqueue p o newId t s).1.id = newId
  ∧ (enqueue p o newId t s).1.status = Status.pending
  ∧ (enqueue p o newId t s).1.attempts = 0
  ∧ (enqueue p o newId t s).1.createdAt = t
  ∧ (enqueue p o newId t s).1.type = p.ptype
  ∧ (enqueue p o newId t s).1.payload = p
  ∧ (enqueue p o newId t s).1.maxAttempts = o.maxAttempts.getD 3
  ∧ (enqueue p o newId t s).1.priority = o.priority.getD 0
  ∧ (enqueue p o newId t s).1.idempotencyKey = o.idempotencyKey
  ∧ (enqueue p o newId t s).2 = s ++ [(enqueue p o newId t s).1]

/-- The amended claim C3: dedup considers only the FIRST row (in insertion
order) with matching `(type, idempotencyKey)`.  When a non-empty key is
supplied and that first matching row is pending or claimed, it is returned
unchanged with no insertion; in every other case — no key, empty key, no
matching row, or a first matching row that is completed or failed (even if
a later matching row is live) — a fresh row is inserted. -/
def EnqueueAmendedSpec (p : JobPayload) (o : EnqueueOptions) (newId : String)
    (t : Nat) (s : Store) : Prop :=
  match o.idempotencyKey with
  | none => InsertsFresh p o newId t s
  | some k =>
      if k ≠ "" then
        match dedupHit p k s with
        | some j =>
            if j.status = Status.pending ∨ j.status = Status.claimed
            then enqueue p o newId t s = (j, s)
            else InsertsFresh p o newId t s
        | none => InsertsFresh p o newId t s
      else InsertsFresh p o newId t s

/-- The no-double-claim property (claim C5): the first of two claim calls
gets a job and the second gets null. -/
def NoDoubleClaim (s : Store) (w1 w2 : String) (t1 t2 : Nat) : Prop :=
  ((claim w1 t1 s).1).isSome = true
  ∧ (claim w2 t2 ((claim w1 t1 s).2)).1 = none

/-- The row-wise effect of reclamation (claim C6): a stale claimed row is
reset to pending with the lock cleared and `attempts` unchanged; every
other row is untouched. -/
def ReclaimRel (cutoff : Nat) (a b : Job) : Prop :=
  (staleClaimed cutoff a = true →
    b = reclaimUpdate a ∧ b.status = Status.pending ∧ b.lockedBy = none
    ∧ b.lockedAt = none ∧ b.attempts = a.attempts)
  ∧ (staleClaimed cutoff a = false → b = a)

/-- The contract of `reclaimStaleLocks` (claim C6): row-wise effect as in
`ReclaimRel`, the returned count is the number of stale claimed rows, and
when anything was reclaimed the store again has a claimable job. -/
def ReclaimSpec (t : Nat) (s : Store) : Prop :=
  List.Forall₂ (ReclaimRel (t - LOCK_TIMEOUT_MS)) s (reclaimStaleLocks t s).2
  ∧ (reclaimStaleLocks t s).1 = (s : List Job).countP (staleClaimed (t - LOCK_TIMEOUT_MS))
  ∧ ((reclaimStaleLocks t s).1 ≠ 0 →
      ∀ w u, ((claim w u (reclaimStaleLocks t s).2).1).isSome = true)

/-- The status transitions one row may undergo under one operation, as the
code actually behaves (amended claim C7): claim moves only pending rows to
claimed; `complete` moves a row of ANY status to completed; `fail` moves a
row of any status to failed when the budget is exhausted and to pending
otherwise; reclamation moves only claimed rows to pending keeping
`attempts`; manual retry moves any row to pending resetting `attempts`. -/
def AmendedTransition (op : Op) (a b : Job) : Prop :=
  b = a ∨
    match op with
    | .claim _ _ => a.status = Status.pending ∧ b.status = Status.claimed
    | .complete _ _ => b.status = Status.completed
    | .fail _ _ _ =>
        (a.maxAttempts ≤ a.attempts ∧ b.status = Status.failed)
        ∨ (a.attempts < a.maxAttempts ∧ b.status = Status.pending)
    | .reclaimStaleLocks _ =>
        a.status = Status.claimed ∧ b.status = Status.pending ∧ b.attempts = a.attempts
    | .retryJob _ => b.status = Status.pending ∧ b.attempts = 0
    | _ => False

/-- The store-level transition discipline of one operation (amended claim
C7): enqueue only leaves the store unchanged or appends one fresh pending
row; delete and purge only remove rows; every other operation rewrites
rows in place within `AmendedTransition`. -/
def StepTransitionsSpec (op : Op) (s : Store) : Prop :=
  match op with
  | .enqueue p o i t =>
      step op s = s
      ∨ (step op s = s ++ [(enqueue p o i t s).1]
         ∧ (enqueue p o i t s).1.status = Status.pending)
  | .deleteJob _ => (step op s).Sublist s
  | .purgeCompleted => (step op s).Sublist s
  | _ => List.Forall₂ (AmendedTransition op) s (step op s)

/-- The contract of `purgeCompleted` (claim C9): the returned count is the
number of completed rows before the call, no completed row survives, the
surviving rows are exactly the non-completed rows of the store, unchanged
and in order, and the row count drops by exactly the returned count. -/
def PurgeSpec (s : Store) : Prop :=
  (purgeCompleted s).1 = (s : List Job).countP (fun j => j.status == Status.completed)
  ∧ (∀ j ∈ (purgeCompleted s).2, j.status ≠ Status.completed)
  ∧ ((purgeCompleted s).2).Sublist s
  ∧ (∀ j, j ∈ s → j.status ≠ Status.completed → j ∈ (purgeCompleted s).2)
  ∧ ((purgeCompleted s).2).length + (purgeCompleted s).1 = s.length

/-- The lock-pairing invariant (claim C10): `lockedBy` and `lockedAt` are
both null or both set on every row. -/
def lockConsistent (s : Store) : Prop :=
  ∀ j ∈ s, j.lockedBy.isSome = j.lockedAt.isSome

/-! ## Concrete rows, stores and runs for witnesses and counterexamples -/

/-- A fully pending row used as a building block. -/
def mkPending (id : String) (priority : Int) (createdAt : Nat) : Job :=
  { id := id, type := "echo", payload := .echo "m", status := Status.pending
    priority := priority, attempts := 0, maxAttempts := 3, lastError := none
    lockedBy := none, lockedAt := none, createdAt := createdAt
    claimedAt := none, completedAt := none, idempotencyKey := none }

/-- A claimed row locked by `w` at `lockedAt`. -/
def mkClaimed (id : String) (w : String) (lockedAt : Nat) : Job :=
  { id := id, type := "echo", payload := .echo "m", status := Status.claimed
    priority := 0, attempts := 1, maxAttempts := 3, lastError := none
    lockedBy := some w, lockedAt := some lockedAt, createdAt := 1
    claimedAt := some lockedAt, completedAt := none, idempotencyKey := none }

/-- A completed row. -/
def mkCompleted (id : String) (createdAt : Nat) : Job :=
  { id := id, type := "echo", payload := .echo "m", status := Status.completed
    priority := 0, attempts := 1, maxAttempts := 3, lastError := none
    lockedBy := none, lockedAt := none, createdAt := createdAt
    claimedAt := some 2, completedAt := some 3, idempotencyKey := none }

/-- The payload of the idempotency-key scenario. -/
def c3Payload : JobPayload := .echo "hi"

/-- Options with `maxAttempts = 1` and idempotency key "K". -/
def c3Opts : EnqueueOptions :=
  { priority := none, maxAttempts := some 1, idempotencyKey := some "K" }

/-- A reachable history: enqueue with key "K", claim, exhaust the budget so
the job fails terminally, then enqueue with the same key again (the failed
row is found first, so a second row is inserted). -/
def c3Ops : List Op :=
  [.enqueue c3Payload c3Opts "id1" 1,
   .claim "w" 2,
   .fail "id1" "boom" 3,
   .enqueue c3Payload c3Opts "id2" 4]

/-- The store reached by `c3Ops`: a failed row and a live pending row, both
with `(type, idempotencyKey) = ("echo", "K")`. -/
def c3Store : Store := run c3Ops []

/-- One more `enqueue` with key "K" on `c3Store`. -/
def c3Result : Job × Store := enqueue c3Payload c3Opts "id3" 5 c3Store

/-- The same history extended by the third enqueue: two live rows with the
same `(type, idempotencyKey)` pair. -/
def c4Store : Store := run (c3Ops ++ [.enqueue c3Payload c3Opts "id3" 5]) []

/-- A store with exactly one pending job (and one completed bystander). -/
def c5Store : Store := [mkCompleted "done" 1, mkPending "only" 0 2]

/-- A store with a pending job of priority 1 and one of priority 5. -/
def c1Store : Store := [mkPending "low" 1 10, mkPending "high" 5 20]

/-- A claimed job whose lock is far older than the timeout, next to a
fresh claimed job. -/
def c6Store : Store :=
  [mkClaimed "stale" "w1" 1000, mkClaimed "fresh" "w2" 900000]

/-- A single pending row on which `complete` is called (counterexample to
claim C7). -/
def c7Store : Store := [mkPending "p1" 0 1]

/-- A completed and a pending row of the same type (counterexample input
for claim C8). -/
def c8Store : Store := [mkCompleted "a" 1, mkPending "b" 0 2]

/-- Both a status and a type filter at once. -/
def c8Filter : JobFilter :=
  { status := some Status.pending, type := some "echo"
    limit := some 50, offset := some 0 }

/-- A store exercising both branches of `purgeCompleted`. -/
def c9Store : Store := [mkCompleted "c1" 1, mkPending "p" 0 2, mkCompleted "c2" 3]

/-- The retry-budget scenario of claim C2: a default job claimed, failed,
claimed, failed and claimed a third time, so that it sits claimed with
`attempts = 3` of `maxAttempts = 3`. -/
def c2Ops : List Op :=
  [.enqueue (JobPayload.echo "r") ⟨none, none, none⟩ "j1" 1,
   .claim "w" 2, .fail "j1" "e1" 3,
   .claim "w" 4, .fail "j1" "e2" 5,
   .claim "w" 6]

/-- The store reached by `c2Ops`. -/
def c2Store : Store := run c2Ops []

/-! ## Helper lemmas: the claim ordering -/

theorem betterJob_iff {a b : Job} :
    betterJob a b = true ↔
      b.priority < a.priority ∨ (a.priority = b.priority ∧ a.createdAt < b.createdAt) := by
  simp [betterJob]

theorem betterJob_irrefl (j : Job) : betterJob j j = false := by
  simp only [Bool.eq_false_iff, ne_eq, betterJob_iff]
  omega

theorem betterJob_asymm {a b : Job} (h : betterJob a b = true) :
    betterJob b a = false := by
  rw [betterJob_iff] at h
  simp only [Bool.eq_false_iff, ne_eq, betterJob_iff]
  omega

theorem betterJob_negtrans {x b j : Job} (hxb : betterJob x b = false)
    (hbj : betterJob b j = false) : betterJob x j = false := by
  simp only [Bool.eq_false_iff, ne_eq, betterJob_iff] at hxb hbj ⊢
  omega

theorem selectFrom_eq_none {l : List Job} (h : selectFrom l = none) : l = [] := by
  cases l with
  | nil => rfl
  | cons j js =>
      cases hsel : selectFrom js <;> simp [selectFrom, hsel] at h

theorem selectFrom_mem {l : List Job} {j : Job} (h : selectFrom l = some j) :
    j ∈ l := by
  induction l generalizing j with
  | nil => simp [selectFrom] at h
  | cons a as ih =>
      cases hsel : selectFrom as with
      | none =>
          simp [selectFrom, hsel] at h
          simp [h]
      | some b =>
          simp only [selectFrom, hsel] at h
          by_cases hba : betterJob b a
          · simp [hba] at h
            exact List.mem_cons_of_mem _ (h ▸ ih hsel)
          · simp [hba] at h
            simp [h]

theorem selectFrom_max {l : List Job} {j : Job} (h : selectFrom l = some j) :
    ∀ x ∈ l, betterJob x j = false := by
  induction l generalizing j with
  | nil => simp [selectFrom] at h
  | cons a as ih =>
      cases hsel : selectFrom as with
      | none =>
          have has : as = [] := selectFrom_eq_none hsel
          subst has
          simp [selectFrom] at h
          subst h
          intro x hx
          rw [List.mem_singleton] at hx
          subst hx
          exact betterJob_irrefl x
      | some b =>
          simp only [selectFrom, hsel, Option.some.injEq] at h
          by_cases hba : betterJob b a
          · simp only [hba, if_true] at h
            subst h
            intro x hx
            rcases List.mem_cons.mp hx with rfl | hx
            · exact betterJob_asymm hba
            · exact ih hsel x hx
          · simp only [hba, if_false] at h
            subst h
            intro x hx
            rcases List.mem_cons.mp hx with rfl | hx
            · exact betterJob_irrefl x
            · have hxb := ih hsel x hx
              have hbj : betterJob b a = false := Bool.eq_false_iff.mpr hba
              exact betterJob_negtrans hxb hbj

/-! ## Helper lemmas: updates of a single row by a WHERE predicate -/

theorem map_update_id {l : List Job} {p : Job → Bool} {f : Job → Job}
    (h : ∀ x ∈ l, p x = false) :
    l.map (fun x => if p x then f x else x) = l := by
  induction l with
  | nil => rfl
  | cons a as ih =>
      have ha := h a (List.mem_cons_self a as)
      simp only [List.map_cons, ha, if_false, List.cons.injEq]
      exact ⟨rfl, ih fun x hx => h x (List.mem_cons_of_mem a hx)⟩

theorem map_update_decomp {l1 l2 : List Job} {j : Job} {p : Job → Bool}
    {f : Job → Job} (hj : p j = true)
    (h1 : ∀ x ∈ l1, p x = false) (h2 : ∀ x ∈ l2, p x = false) :
    (l1 ++ j :: l2).map (fun x => if p x then f x else x) = l1 ++ f j :: l2 := by
  rw [List.map_append, List.map_cons, map_update_id h1, map_update_id h2, hj]
  simp

theorem find_decomp {l1 l2 : List Job} {j : Job} {p : Job → Bool}
    (hj : p j = true) (h1 : ∀ x ∈ l1, p x = false) :
    (l1 ++ j :: l2).find? p = some j := by
  induction l1 with
  | nil => simp [List.find?, hj]
  | cons a as ih =>
      have ha := h1 a (List.mem_cons_self a as)
      simp only [List.cons_append, List.find?, ha]
      exact ih fun x hx => h1 x (List.mem_cons_of_mem a hx)

theorem filter_nil_of_false {l : List Job} {p : Job → Bool}
    (h : ∀ x ∈ l, p x = false) : l.filter p = [] := by
  induction l with
  | nil => rfl
  | cons a as ih =>
      have ha := h a (List.mem_cons_self a as)
      simp only [List.filter_cons, ha, if_false]
      exact ih fun x hx => h x (List.mem_cons_of_mem a hx)

theorem filter_decomp {l1 l2 : List Job} {j : Job} {p : Job → Bool}
    (hj : p j = true) (h1 : ∀ x ∈ l1, p x = false)
    (h2 : ∀ x ∈ l2, p x = false) :
    (l1 ++ j :: l2).filter p = [j] := by
  rw [List.filter_append, List.filter_cons, filter_nil_of_false h1,
    filter_nil_of_false h2, hj]
  rfl

theorem find_none_of_false {l : List Job} {p : Job → Bool}
    (h : ∀ x ∈ l, p x = false) : l.find? p = none := by
  rw [List.find?_eq_none]
  intro x hx
  simp [h x hx]

/-- Splitting a member out of a store whose ids are pairwise distinct. -/
theorem nodup_ids_decomp {s : Store} {j : Job} (hmem : j ∈ s)
    (hnd : ((s : List Job).map Job.id).Nodup) :
    ∃ l1 l2, s = l1 ++ j :: l2
      ∧ (∀ x ∈ l1, x.id ≠ j.id) ∧ (∀ x ∈ l2, x.id ≠ j.id) := by
  obtain ⟨l1, l2, rfl⟩ := List.append_of_mem hmem
  refine ⟨l1, l2, rfl, ?_, ?_⟩
  · intro x hx heq
    rw [List.map_append, List.map_cons, List.nodup_append] at hnd
    exact hnd.2.2 (List.mem_map_of_mem Job.id hx)
      (heq ▸ List.mem_cons_self j.id (l2.map Job.id))
  · intro x hx heq
    rw [List.map_append, List.map_cons, List.nodup_append] at hnd
    exact (List.nodup_cons.mp hnd.2.1).1 (heq ▸ List.mem_map_of_mem Job.id hx)

/-! ## Helper lemmas: the claim operation -/

theorem selectTop_mem_pending {s : Store} {sel : Job}
    (h : selectTop s = some sel) : sel ∈ s ∧ sel.status = Status.pending := by
  unfold selectTop at h
  have hm := selectFrom_mem h
  rw [List.mem_filter] at hm
  exact ⟨hm.1, by simpa using hm.2⟩

theorem selectTop_best {s : Store} {sel : Job} (h : selectTop s = some sel) :
    ∀ x ∈ s, x.status = Status.pending →
      x.priority ≤ sel.priority
      ∧ (x.priority = sel.priority → sel.createdAt ≤ x.createdAt) := by
  unfold selectTop at h
  intro x hx hp
  have hxf : x ∈ (s : List Job).filter (fun j => j.status == Status.pending) :=
    List.mem_filter.mpr ⟨hx, by simp [hp]⟩
  have hmax := selectFrom_max h x hxf
  simp only [Bool.eq_false_iff, ne_eq, betterJob_iff] at hmax
  omega

theorem claim_of_no_pending {s : Store} (w : String) (t : Nat)
    (h : ∀ j ∈ s, j.status ≠ Status.pending) : claim w t s = (none, s) := by
  have hfil : (s : List Job).filter (fun j => j.status == Status.pending) = [] :=
    filter_nil_of_false (by intro x hx; simp [h x hx])
  unfold claim selectTop
  rw [hfil]
  rfl

/-- The pending-row predicate of the claim UPDATE holds of the selected
row and of no row with another id. -/
theorem claim_pred_off {sel x : Job} (hx : x.id ≠ sel.id) :
    (x.status == Status.pending && x.id == sel.id) = false := by
  have : (x.id == sel.id) = false := beq_eq_false_iff_ne.mpr hx
  simp [this]

theorem claim_eq_some {s : Store} {sel : Job} (w : String) (t : Nat)
    (hsel : selectTop s = some sel) {l1 l2 : List Job}
    (hs : s = l1 ++ sel :: l2)
    (h1 : ∀ x ∈ l1, x.id ≠ sel.id) (h2 : ∀ x ∈ l2, x.id ≠ sel.id) :
    claim w t s
      = (some (claimUpdate w t sel, sel.payload), l1 ++ claimUpdate w t sel :: l2) := by
  have hpend := (selectTop_mem_pending hsel).2
  have hj : (sel.status == Status.pending && sel.id == sel.id) = true := by
    simp [hpend]
  subst hs
  simp only [claim, hsel]
  rw [filter_decomp hj (fun x hx => claim_pred_off (h1 x hx))
      (fun x hx => claim_pred_off (h2 x hx)),
    map_update_decomp hj (fun x hx => claim_pred_off (h1 x hx))
      (fun x hx => claim_pred_off (h2 x hx))]
  rfl

theorem claim_returns_pending {s : Store} {w : String} {u : Nat} {r s2}
    (h : claim w u s = (some r, s2)) :
    ∃ j0, j0 ∈ s ∧ j0.status = Status.pending ∧ r.1 = claimUpdate w u j0 := by
  cases hsel : selectTop s with
  | none => simp only [claim, hsel] at h; exact absurd h (by simp)
  | some sel =>
      simp only [claim, hsel] at h
      cases hfil : (s : List Job).filter
          (fun j => j.status == Status.pending && j.id == sel.id) with
      | nil => simp only [hfil] at h; exact absurd h (by simp)
      | cons j rest =>
          simp only [hfil] at h
          rw [Prod.mk.injEq] at h
          have hr := Option.some.inj h.1
          have hj : j ∈ (s : List Job).filter
              (fun j => j.status == Status.pending && j.id == sel.id) := by
            rw [hfil]; exact List.mem_cons_self j rest
          rw [List.mem_filter] at hj
          refine ⟨j, hj.1, ?_, ?_⟩
          · have := hj.2
            simp only [Bool.and_eq_true, beq_iff_eq] at this
            exact this.1
          · rw [← hr]

theorem claim_isSome_of_pending {s : Store} {j : Job} (hj : j ∈ s)
    (hp : j.status = Status.pending) (w : String) (u : Nat) :
    ((claim w u s).1).isSome = true := by
  have hjf : j ∈ (s : List Job).filter (fun x => x.status == Status.pending) :=
    List.mem_filter.mpr ⟨hj, by simp [hp]⟩
  cases hsel : selectTop s with
  | none =>
      unfold selectTop at hsel
      rw [selectFrom_eq_none hsel] at hjf
      exact absurd hjf (List.not_mem_nil j)
  | some sel =>
      have hselm := selectTop_mem_pending hsel
      have hself : sel ∈ (s : List Job).filter
          (fun x => x.status == Status.pending && x.id == sel.id) :=
        List.mem_filter.mpr ⟨hselm.1, by simp [hselm.2]⟩
      simp only [claim, hsel]
      cases hfil : (s : List Job).filter
          (fun x => x.status == Status.pending && x.id == sel.id) with
      | nil => rw [hfil] at hself; exact absurd hself (List.not_mem_nil sel)
      | cons a rest => simp [hfil]

theorem claim_none_no_pending {s : Store} {w : String} {t : Nat}
    (h : (claim w t s).1 = none) :
    (claim w t s).2 = s ∧ ∀ j ∈ s, j.status ≠ Status.pending := by
  constructor
  · cases hsel : selectTop s with
    | none => unfold claim; rw [hsel]
    | some sel =>
        have hselm := selectTop_mem_pending hsel
        have hsome := claim_isSome_of_pending hselm.1 hselm.2 w t
        rw [h] at hsome
        exact absurd hsome (by simp)
  · intro j hj hp
    have hsome := claim_isSome_of_pending hj hp w t
    rw [h] at hsome
    exact absurd hsome (by simp)

/-! ## Claim C1: the claim operation -/

/-- C1: on a store with pairwise-distinct ids, `claim(workerId)` selects
the single pending job with the highest priority (ties to the earliest
`createdAt`), transitions exactly that job to claimed with
`lockedBy = workerId`, `lockedAt = claimedAt = now` and `attempts`
incremented by one, and returns it with its decoded payload; with no
pending job it returns null and changes nothing. -/
theorem claim_selects_best (s : Store) (w : String) (t : Nat)
    (hnd : ((s : List Job).map Job.id).Nodup) : ClaimSpec s w t := by
  constructor
  · exact fun h => claim_none_no_pending h
  · intro j p hjp
    cases hsel : selectTop s with
    | none =>
        have hnone : claim w t s = (none, s) := by unfold claim; rw [hsel]
        rw [hnone] at hjp
        exact absurd hjp (by simp)
    | some sel =>
        obtain ⟨hmem, hpend⟩ := selectTop_mem_pending hsel
        obtain ⟨l1, l2, hs, h1, h2⟩ := nodup_ids_decomp hmem hnd
        have heq := claim_eq_some w t hsel hs h1 h2
        rw [heq] at hjp
        simp only [Option.some.injEq, Prod.mk.injEq] at hjp
        obtain ⟨hj, hp⟩ := hjp
        subst hj
        subst hp
        exact ⟨l1, sel, l2, hs, hpend, selectTop_best hsel, rfl, rfl, rfl, rfl,
          rfl, rfl, rfl, rfl, by rw [heq]⟩

/-- Witness for C1: a concrete store with jobs of priorities 1 and 5. -/
theorem claim_selects_best_witness :
    ((c1Store : List Job).map Job.id).Nodup ∧ ClaimSpec c1Store "w1" 99 :=
  ⟨by decide, claim_selects_best c1Store "w1" 99 (by decide)⟩

/-! ## Claim C2: the fail operation -/

/-- C2: `fail(jobId, error)` returns null and changes nothing for an
unknown id; on the job with the id it performs the terminal transition
(failed, `lastError`, `completedAt`, lock cleared) when
`attempts ≥ maxAttempts` and the retry transition (pending, `lastError`,
lock cleared, attempts kept) otherwise, touching no other row; and the
claim path only ever returns a job that was pending, never a failed
one. -/
theorem fail_transitions (s : Store) (jobId error : String) (t : Nat) :
    FailSpec s jobId error t := by
  refine ⟨?_, ?_, ?_⟩
  · intro h
    unfold fail
    rw [find_none_of_false (fun x hx => beq_eq_false_iff_ne.mpr (h x hx))]
  · intro l1 j l2 hs hid h1 h2
    have hj : (fun x => x.id == jobId) j = true := by simp [hid]
    have hf1 : ∀ x ∈ l1, (fun x => x.id == jobId) x = false :=
      fun x hx => beq_eq_false_iff_ne.mpr (h1 x hx)
    have hf2 : ∀ x ∈ l2, (fun x => x.id == jobId) x = false :=
      fun x hx => beq_eq_false_iff_ne.mpr (h2 x hx)
    subst hs
    have hfind : ((l1 ++ j :: l2 : List Job)).find? (fun x => x.id == jobId)
        = some j := find_decomp hj hf1
    constructor
    · intro hcond
      refine ⟨?_, rfl, rfl, rfl, rfl, rfl, rfl⟩
      simp only [fail, hfind]
      rw [if_pos hcond, map_update_decomp hj hf1 hf2]
    · intro hcond
      refine ⟨?_, rfl, rfl, rfl, rfl, rfl⟩
      simp only [fail, hfind]
      rw [if_neg (by omega), map_update_decomp hj hf1 hf2]
  · exact fun w u r s2 h => claim_returns_pending h

/-- Witness for C2: the store of the retry-budget scenario, in which the
job sits claimed with `attempts = 3` of `maxAttempts = 3` after its third
claim. -/
theorem fail_transitions_witness : FailSpec c2Store "j1" "boom" 7 :=
  fail_transitions c2Store "j1" "boom" 7

/-! ## Claim C3: idempotent enqueue -/

/-- Counterexample to C3 as stated: in the reachable store `c3Store` the
job "id2" is pending with `(type, idempotencyKey) = ("echo", "K")`, yet
`enqueue` with key "K" does not return it unchanged — it inserts a fresh
row "id3", because the dedup lookup sees only the first matching row
"id1", which is failed. -/
theorem enqueue_dedup_counterexample :
    c3Store.map (fun j => (j.id, j.status, j.type, j.idempotencyKey))
      = [("id1", Status.failed, "echo", some "K"),
         ("id2", Status.pending, "echo", some "K")]
    ∧ c3Result.1.id = "id3"
    ∧ c3Result.2.length = c3Store.length + 1 := by
  decide

/-- Amended C3: dedup keys on the FIRST matching `(type, idempotencyKey)`
row in insertion order; only when that row is live is it returned
unchanged, and in every other case (no key, empty key, no match, or a
dead first match — even with a live later match) a fresh pending row with
the given id, zero attempts and `createdAt = now` is inserted. -/
theorem enqueue_first_match (p : JobPayload) (o : EnqueueOptions)
    (newId : String) (t : Nat) (s : Store) : EnqueueAmendedSpec p o newId t s := by
  unfold EnqueueAmendedSpec
  split
  · rename_i hk
    simp [InsertsFresh, enqueue, hk]
  · rename_i k hk
    split
    · rename_i hke
      split
      · rename_i j hhit
        split
        · rename_i hst
          simp [enqueue, hk, hke, hhit, hst]
        · rename_i hst
          simp [InsertsFresh, enqueue, hk, hke, hhit, hst]
      · rename_i hhit
        simp [InsertsFresh, enqueue, hk, hke, hhit]
    · rename_i hke
      simp [InsertsFresh, enqueue, hk, hke]

/-- The amended C3 at the counterexample input itself. -/
theorem enqueue_first_match_witness :
    EnqueueAmendedSpec c3Payload c3Opts "id3" 5 c3Store :=
  enqueue_first_match c3Payload c3Opts "id3" 5 c3Store

/-! ## Claim C4: at most one live job per idempotency key -/

/-- C4 is violated by the code: after the reachable history behind
`c4Store` (enqueue with key "K", fail terminally, enqueue twice more with
the same key), two live rows — "id2" and "id3", both pending — carry the
same `(type, idempotencyKey) = ("echo", "K")` pair, because the dedup
lookup checks only the first matching row, the failed "id1". -/
theorem dedup_live_pair_violated :
    c4Store.map (fun j => (j.id, j.type, j.idempotencyKey, j.status))
      = [("id1", "echo", some "K", Status.failed),
         ("id2", "echo", some "K", Status.pending),
         ("id3", "echo", some "K", Status.pending)]
    ∧ (c4Store.filter (fun j => j.idempotencyKey == some "K"
        && (j.status == Status.pending || j.status == Status.claimed))).length = 2 := by
  decide

/-! ## Claim C5: no double claim -/

/-- The second store component of a successful selection. -/
theorem claim_snd_eq {s : Store} {sel : Job} {w : String} {t : Nat}
    (hsel : selectTop s = some sel) :
    (claim w t s).2 = (s : List Job).map (fun x =>
      if x.status == Status.pending && x.id == sel.id then claimUpdate w t x
      else x) := by
  simp only [claim, hsel]
  cases hfil : (s : List Job).filter
      (fun x => x.status == Status.pending && x.id == sel.id) <;> simp [hfil]

/-- C5: with exactly one pending job, of two claim calls in either serial
order exactly the first receives a job and the second receives null
(claim is a single atomic conditional update in the embedding, as the
single UPDATE statement is in the source). -/
theorem claim_no_double (s : Store) (w1 w2 : String) (t1 t2 : Nat)
    (h : ((s : List Job).filter (fun j => j.status == Status.pending)).length = 1) :
    NoDoubleClaim s w1 w2 t1 t2 := by
  obtain ⟨j, hfil⟩ := List.length_eq_one.mp h
  have hjmem : j ∈ (s : List Job).filter (fun x => x.status == Status.pending) := by
    rw [hfil]
    exact List.mem_singleton_self j
  rw [List.mem_filter] at hjmem
  have hjp : j.status = Status.pending := by simpa using hjmem.2
  have hsel : selectTop s = some j := by
    unfold selectTop
    rw [hfil]
    rfl
  constructor
  · exact claim_isSome_of_pending hjmem.1 hjp w1 t1
  · have hnp : ∀ y ∈ (claim w1 t1 s).2, y.status ≠ Status.pending := by
      rw [claim_snd_eq hsel]
      intro y hy hyp
      obtain ⟨x, hx, rfl⟩ := List.mem_map.mp hy
      by_cases hpx : (x.status == Status.pending && x.id == j.id) = true
      · rw [if_pos hpx] at hyp
        simp [claimUpdate] at hyp
      · rw [if_neg hpx] at hyp
        have hxf : x ∈ (s : List Job).filter (fun z => z.status == Status.pending) :=
          List.mem_filter.mpr ⟨hx, by simp [hyp]⟩
        rw [hfil] at hxf
        have hxj : x = j := by simpa using hxf
        subst hxj
        exact hpx (by simp [hyp])
    have hdone := claim_of_no_pending w2 t2 hnp
    rw [hdone]

/-- Witness for C5: the one-pending-job store `c5Store`. -/
theorem claim_no_double_witness :
    ((c5Store : List Job).filter (fun j => j.status == Status.pending)).length = 1
    ∧ NoDoubleClaim c5Store "wA" "wB" 7 8 :=
  ⟨by decide, claim_no_double c5Store "wA" "wB" 7 8 (by decide)⟩

/-! ## Helper lemmas: pointwise relations between a store and its image -/

theorem forall₂_map_self {R : Job → Job → Prop} {f : Job → Job}
    (l : List Job) (h : ∀ x ∈ l, R x (f x)) : List.Forall₂ R l (l.map f) := by
  induction l with
  | nil => exact List.Forall₂.nil
  | cons a as ih =>
      exact List.Forall₂.cons (h a (List.mem_cons_self a as))
        (ih fun x hx => h x (List.mem_cons_of_mem a hx))

theorem forall₂_app {R : Job → Job → Prop} {a b c d : List Job}
    (h1 : List.Forall₂ R a b) (h2 : List.Forall₂ R c d) :
    List.Forall₂ R (a ++ c) (b ++ d) := by
  induction h1 with
  | nil => exact h2
  | cons hab h ih => exact List.Forall₂.cons hab ih

theorem forall₂_self {R : Job → Job → Prop} (l : List Job)
    (h : ∀ x ∈ l, R x x) : List.Forall₂ R l l := by
  induction l with
  | nil => exact List.Forall₂.nil
  | cons a as ih =>
      exact List.Forall₂.cons (h a (List.mem_cons_self a as))
        (ih fun x hx => h x (List.mem_cons_of_mem a hx))

/-! ## Claim C6: stale-lock reclamation -/

/-- C6: `reclaimStaleLocks` resets exactly the claimed rows locked before
the cutoff to pending with the lock cleared and `attempts` unchanged,
leaves every other row untouched, returns the number of rows so reset,
and when it reset anything the store has a claimable job again. -/
theorem reclaim_resets_stale (t : Nat) (s : Store) : ReclaimSpec t s := by
  refine ⟨?_, ?_, ?_⟩
  · apply forall₂_map_self
    intro x hx
    by_cases hst : staleClaimed (t - LOCK_TIMEOUT_MS) x = true
    · rw [if_pos hst]
      exact ⟨fun _ => ⟨rfl, rfl, rfl, rfl, rfl⟩,
        fun hfalse => by rw [hst] at hfalse; exact absurd hfalse (by simp)⟩
    · rw [if_neg hst]
      exact ⟨fun htrue => absurd htrue hst, fun _ => rfl⟩
  · exact (List.countP_eq_length_filter _ _).symm
  · intro hne w u
    have hex : ∃ j, j ∈ s ∧ staleClaimed (t - LOCK_TIMEOUT_MS) j = true := by
      rcases hcase : (s : List Job).filter (staleClaimed (t - LOCK_TIMEOUT_MS)) with
        _ | ⟨a, rest⟩
      · exact absurd hcase (by
          intro hc
          exact hne (by simp only [reclaimStaleLocks, hc, List.length_nil]))
      · have ha : a ∈ (s : List Job).filter (staleClaimed (t - LOCK_TIMEOUT_MS)) := by
          rw [hcase]
          exact List.mem_cons_self a rest
        rw [List.mem_filter] at ha
        exact ⟨a, ha.1, ha.2⟩
    obtain ⟨j, hj, hstale⟩ := hex
    have himg : reclaimUpdate j ∈ (reclaimStaleLocks t s).2 :=
      List.mem_map.mpr ⟨j, hj, by rw [if_pos hstale]⟩
    exact claim_isSome_of_pending himg rfl w u

/-- Witness for C6: the store with one stale and one fresh claimed job. -/
theorem reclaim_resets_stale_witness : ReclaimSpec 1000000 c6Store :=
  reclaim_resets_stale 1000000 c6Store

/-! ## Helper lemmas: the second components of the operations -/

theorem enqueue_snd_cases (p : JobPayload) (o : EnqueueOptions) (i : String)
    (t : Nat) (s : Store) :
    (enqueue p o i t s).2 = s
    ∨ ((enqueue p o i t s).2 = s ++ [(enqueue p o i t s).1]
       ∧ (enqueue p o i t s).1.lockedBy = none
       ∧ (enqueue p o i t s).1.lockedAt = none
       ∧ (enqueue p o i t s).1.status = Status.pending) := by
  simp only [enqueue]
  split
  · exact Or.inl rfl
  · exact Or.inr ⟨rfl, rfl, rfl, rfl⟩

theorem claim_snd_id {s : Store} {w : String} {t : Nat}
    (hsel : selectTop s = none) : (claim w t s).2 = s := by
  unfold claim
  rw [hsel]

theorem complete_snd_eq (jobId : String) (t : Nat) (s : Store) :
    (complete jobId t s).2
      = (s : List Job).map (fun j => if j.id == jobId then completeUpdate t j else j) := by
  simp only [complete]
  cases hfil : (s : List Job).filter (fun j => j.id == jobId) <;> simp [hfil]

theorem retry_snd_eq (jobId : String) (s : Store) :
    (retryJob jobId s).2
      = (s : List Job).map (fun j => if j.id == jobId then retryUpdate j else j) := by
  simp only [retryJob]
  cases hfil : (s : List Job).filter (fun j => j.id == jobId) <;> simp [hfil]

theorem fail_snd_cases (jobId error : String) (t : Nat) (s : Store) :
    (fail jobId error t s).2 = s
    ∨ (fail jobId error t s).2
        = (s : List Job).map (fun j => if j.id == jobId then failTerminal error t j else j)
    ∨ (fail jobId error t s).2
        = (s : List Job).map (fun j => if j.id == jobId then failRetry error j else j) := by
  simp only [fail]
  split
  · exact Or.inl rfl
  · split
    · exact Or.inr (Or.inl rfl)
    · exact Or.inr (Or.inr rfl)

/-! ## Claim C7: the transition discipline -/

/-- Counterexample to C7 as stated: `complete` on the store `c7Store`
moves the job "p1" from pending straight to completed — a transition the
claim forbids (`claimed → completed` only), performed on a job that is
not currently claimed. -/
theorem complete_unclaimed_counterexample :
    c7Store.map (fun j => (j.id, j.status)) = [("p1", Status.pending)]
    ∧ ((complete "p1" 50 c7Store).2).map (fun j => (j.id, j.status))
        = [("p1", Status.completed)]
    ∧ (complete "p1" 50 c7Store).1.isSome = true := by
  decide

/-- Amended C7: on a store with pairwise-distinct ids, claim moves only
pending rows (to claimed); reclamation moves only claimed rows (to
pending, attempts kept); `retryJob` forces pending and resets attempts;
but `complete` completes a row of ANY current status, and `fail` moves a
row of any current status to failed or back to pending according to its
budget; enqueue only appends a fresh pending row, and delete/purge only
remove rows. -/
theorem transitions_amended (op : Op) (s : Store)
    (hnd : ((s : List Job).map Job.id).Nodup) : StepTransitionsSpec op s := by
  cases op with
  | enqueue p o i t =>
      rcases enqueue_snd_cases p o i t s with hc | hc
      · exact Or.inl hc
      · exact Or.inr ⟨hc.1, hc.2.2.2⟩
  | claim w t =>
      show List.Forall₂ _ s (claim w t s).2
      cases hsel : selectTop s with
      | none =>
          rw [claim_snd_id hsel]
          exact forall₂_self s fun x _ => Or.inl rfl
      | some sel =>
          rw [claim_snd_eq hsel]
          apply forall₂_map_self
          intro x hx
          by_cases hp : (x.status == Status.pending && x.id == sel.id) = true
          · rw [if_pos hp]
            refine Or.inr ⟨?_, rfl⟩
            simp only [Bool.and_eq_true, beq_iff_eq] at hp
            exact hp.1
          · rw [if_neg hp]
            exact Or.inl rfl
  | complete jobId t =>
      show List.Forall₂ _ s (complete jobId t s).2
      rw [complete_snd_eq]
      apply forall₂_map_self
      intro x hx
      by_cases hp : (x.id == jobId) = true
      · rw [if_pos hp]
        exact Or.inr rfl
      · rw [if_neg hp]
        exact Or.inl rfl
  | fail jobId error t =>
      show List.Forall₂ _ s (fail jobId error t s).2
      cases hfind : (s : List Job).find? (fun j => j.id == jobId) with
      | none =>
          have hs : (fail jobId error t s).2 = s := by
            simp only [fail, hfind]
          rw [hs]
          exact forall₂_self s fun x _ => Or.inl rfl
      | some current =>
          have hcur : current.id = jobId := by
            have := List.find?_some hfind
            simpa using this
          obtain ⟨l1, l2, hs, h1, h2⟩ :=
            nodup_ids_decomp (List.mem_of_find?_eq_some hfind) hnd
          have hj : (fun x => x.id == jobId) current = true := by simp [hcur]
          have hf1 : ∀ x ∈ l1, (fun x => x.id == jobId) x = false :=
            fun x hx => beq_eq_false_iff_ne.mpr (hcur ▸ h1 x hx)
          have hf2 : ∀ x ∈ l2, (fun x => x.id == jobId) x = false :=
            fun x hx => beq_eq_false_iff_ne.mpr (hcur ▸ h2 x hx)
          by_cases hcond : current.maxAttempts ≤ current.attempts
          · have hsnd : (fail jobId error t s).2
                = l1 ++ failTerminal error t current :: l2 := by
              simp only [fail, hfind, if_pos hcond]
              rw [hs]
              exact map_update_decomp hj hf1 hf2
            rw [hsnd, hs]
            refine forall₂_app (forall₂_self l1 fun x _ => Or.inl rfl) ?_
            exact List.Forall₂.cons (Or.inr (Or.inl ⟨hcond, rfl⟩))
              (forall₂_self l2 fun x _ => Or.inl rfl)
          · have hsnd : (fail jobId error t s).2
                = l1 ++ failRetry error current :: l2 := by
              simp only [fail, hfind, if_neg hcond]
              rw [hs]
              exact map_update_decomp hj hf1 hf2
            rw [hsnd, hs]
            refine forall₂_app (forall₂_self l1 fun x _ => Or.inl rfl) ?_
            exact List.Forall₂.cons (Or.inr (Or.inr ⟨by omega, rfl⟩))
              (forall₂_self l2 fun x _ => Or.inl rfl)
  | reclaimStaleLocks t =>
      show List.Forall₂ _ s (reclaimStaleLocks t s).2
      apply forall₂_map_self
      intro x hx
      by_cases hst : staleClaimed (t - LOCK_TIMEOUT_MS) x = true
      · rw [if_pos hst]
        refine Or.inr ⟨?_, rfl, rfl⟩
        have := hst
        simp only [staleClaimed, Bool.and_eq_true, beq_iff_eq] at this
        exact this.1
      · rw [if_neg hst]
        exact Or.inl rfl
  | retryJob jobId =>
      show List.Forall₂ _ s (retryJob jobId s).2
      rw [retry_snd_eq]
      apply forall₂_map_self
      intro x hx
      by_cases hp : (x.id == jobId) = true
      · rw [if_pos hp]
        exact Or.inr ⟨rfl, rfl⟩
      · rw [if_neg hp]
        exact Or.inl rfl
  | deleteJob jobId =>
      exact List.filter_sublist _
  | purgeCompleted =>
      exact List.filter_sublist _

/-- Witness for the amended C7: `complete` on the concrete pending-only
store. -/
theorem transitions_amended_witness :
    ((c7Store : List Job).map Job.id).Nodup
    ∧ StepTransitionsSpec (Op.complete "p1" 50) c7Store :=
  ⟨by decide, transitions_amended (Op.complete "p1" 50) c7Store (by decide)⟩

/-! ## Claim C8: the getJobs filters -/

/-- C8 is violated by the code: with both a status and a type filter
supplied at once (`c8Filter` asks for pending echo jobs), `getJobs`
returns the completed job "a" as well, because the second `.where` call
of the builder replaces the status condition with the type condition.
The page order (priority DESC, createdAt ASC) is as specified. -/
theorem getJobs_drops_status_filter :
    c8Filter.status = some Status.pending
    ∧ c8Filter.type = some "echo"
    ∧ (getJobs c8Filter c8Store).map (fun j => (j.id, j.status, j.type))
        = [("a", Status.completed, "echo"), ("b", Status.pending, "echo")] := by
  decide

/-! ## Claim C9: purgeCompleted -/

/-- The lengths of the two complementary filters of one list add up. -/
theorem length_filter_split (p : Job → Bool) (l : List Job) :
    (l.filter (fun x => !(p x))).length + (l.filter p).length = l.length := by
  induction l with
  | nil => rfl
  | cons a as ih =>
      cases hp : p a <;> simp [List.filter_cons, hp] <;> omega

/-- C9: `purgeCompleted` returns the number of completed rows before the
call, keeps no completed row, keeps every non-completed row, and removes
rows only (the survivors are a sublist of the store, each row
unchanged). -/
theorem purge_removes_completed (s : Store) : PurgeSpec s := by
  refine ⟨?_, ?_, ?_, ?_, ?_⟩
  · exact (List.countP_eq_length_filter _ _).symm
  · intro j hj
    have hj2 : j ∈ (s : List Job).filter (fun x => !(x.status == Status.completed)) := hj
    rw [List.mem_filter] at hj2
    simpa using hj2.2
  · exact List.filter_sublist _
  · intro j hj hne
    exact List.mem_filter.mpr ⟨hj, by simp [hne]⟩
  · exact length_filter_split (fun j => j.status == Status.completed) s

/-- Witness for C9 at the concrete mixed store. -/
theorem purge_removes_completed_witness : PurgeSpec c9Store :=
  purge_removes_completed c9Store

/-! ## Claim C10: the lock-pairing invariant -/

/-- Mapping a transform that either keeps a row or yields a row with a
consistent lock pair preserves the invariant. -/
theorem lockConsistent_map {s : Store} (h : lockConsistent s) (f : Job → Job)
    (hf : ∀ x, (f x).lockedBy.isSome = (f x).lockedAt.isSome ∨ f x = x) :
    lockConsistent ((s : List Job).map f) := by
  intro y hy
  obtain ⟨x, hx, rfl⟩ := List.mem_map.mp hy
  rcases hf x with hgood | heq
  · exact hgood
  · rw [heq]
    exact h x hx

/-- C10: every operation preserves the invariant that `lockedBy` and
`lockedAt` are both null or both set. -/
theorem locks_paired (op : Op) (s : Store) (h : lockConsistent s) :
    lockConsistent (step op s) := by
  cases op with
  | enqueue p o i t =>
      rcases enqueue_snd_cases p o i t s with hc | hc
      · show lockConsistent (enqueue p o i t s).2
        rw [hc]
        exact h
      · show lockConsistent (enqueue p o i t s).2
        rw [hc.1]
        intro y hy
        rcases List.mem_append.mp hy with hys | hyn
        · exact h y hys
        · rw [List.mem_singleton.mp hyn, hc.2.1, hc.2.2.1]
          rfl
  | claim w t =>
      cases hsel : selectTop s with
      | none =>
          show lockConsistent (claim w t s).2
          rw [claim_snd_id hsel]
          exact h
      | some sel =>
          show lockConsistent (claim w t s).2
          rw [claim_snd_eq hsel]
          apply lockConsistent_map h
          intro x
          by_cases hp : (x.status == Status.pending && x.id == sel.id) = true
          · rw [if_pos hp]
            exact Or.inl rfl
          · rw [if_neg hp]
            exact Or.inr rfl
  | complete jobId t =>
      show lockConsistent (complete jobId t s).2
      rw [complete_snd_eq]
      apply lockConsistent_map h
      intro x
      by_cases hp : (x.id == jobId) = true
      · rw [if_pos hp]
        exact Or.inl rfl
      · rw [if_neg hp]
        exact Or.inr rfl
  | fail jobId error t =>
      rcases fail_snd_cases jobId error t s with hc | hc | hc <;>
        [skip; skip; skip] <;> show lockConsistent (fail jobId error t s).2 <;>
        rw [hc]
      · exact h
      · apply lockConsistent_map h
        intro x
        by_cases hp : (x.id == jobId) = true
        · rw [if_pos hp]
          exact Or.inl rfl
        · rw [if_neg hp]
          exact Or.inr rfl
      · apply lockConsistent_map h
        intro x
        by_cases hp : (x.id == jobId) = true
        · rw [if_pos hp]
          exact Or.inl rfl
        · rw [if_neg hp]
          exact Or.inr rfl
  | reclaimStaleLocks t =>
      show lockConsistent (reclaimStaleLocks t s).2
      apply lockConsistent_map h
      intro x
      by_cases hst : staleClaimed (t - LOCK_TIMEOUT_MS) x = true
      · rw [if_pos hst]
        exact Or.inl rfl
      · rw [if_neg hst]
        exact Or.inr rfl
  | retryJob jobId =>
      show lockConsistent (retryJob jobId s).2
      rw [retry_snd_eq]
      apply lockConsistent_map h
      intro x
      by_cases hp : (x.id == jobId) = true
      · rw [if_pos hp]
        exact Or.inl rfl
      · rw [if_neg hp]
        exact Or.inr rfl
  | deleteJob jobId =>
      intro y hy
      exact h y (List.mem_of_mem_filter hy)
  | purgeCompleted =>
      intro y hy
      exact h y (List.mem_of_mem_filter hy)

/-- Witness for C10: claiming on the one-pending-job store keeps the lock
pair consistent. -/
theorem locks_paired_witness :
    lockConsistent c5Store ∧ lockConsistent (step (Op.claim "w" 5) c5Store) :=
  ⟨by unfold lockConsistent; decide,
   locks_paired (Op.claim "w" 5) c5Store (by unfold lockConsistent; decide)⟩

end JobQueue

